import Mathlib

/-!
Verification of the movie-catalog TCP server (`src/Project-1/servidor.c`).

The catalog is the global array `movieList` together with `movieCount`; we
embed it as a `List Movie` (the first `movieCount` slots of the array, in
order).  C strings (`char[]` fields) are embedded as `List Char`, and C `int`
as `Int`.  Fallible operations return a structure carrying the new catalog,
whether `saveMoviesToCSV` was invoked, and the outcome that the response
string reports.  The persistence file is embedded as the stream of characters
written (`List Char`), with `none` standing for a missing file.
-/

namespace MovieServer

/-- `MAX_MOVIES` from servidor.c line 34. -/
def MAX_MOVIES : Nat := 1000

/-- The `Movie` struct (servidor.c lines 40-46). -/
structure Movie where
  id : Int
  title : List Char
  director : List Char
  year : Int
  genres : List Char
deriving DecidableEq

instance : Inhabited Movie := ⟨⟨0, [], [], 0, []⟩⟩

/-- C `isspace` in the default locale: space (32) or the range 9..13. -/
def isSpaceChar (c : Char) : Bool := c.toNat = 32 || (9 ≤ c.toNat && c.toNat ≤ 13)

/-- A decimal digit character, `'0'` (48) through `'9'` (57). -/
def isDigitChar (c : Char) : Bool := 48 ≤ c.toNat && c.toNat ≤ 57

/-- Numeric value of a digit character. -/
def digitVal (c : Char) : Nat := c.toNat - 48

/-- Consume leading decimal digits, accumulating their value; stop at the
first non-digit.  This is the digit-consuming loop of C `atoi`. -/
def parseDigits : List Char → Nat → Nat
  | [], acc => acc
  | c :: cs, acc => if isDigitChar c then parseDigits cs (10 * acc + digitVal c) else acc

/-- The sign-and-digits stage of C `atoi`, applied after leading whitespace
is skipped. -/
def atoiSigned : List Char → Int
  | [] => 0
  | c :: rest =>
    if c = '-' then -(parseDigits rest 0 : Int)
    else if c = '+' then (parseDigits rest 0 : Int)
    else (parseDigits (c :: rest) 0 : Int)

/-- C `atoi`: skip leading whitespace, read an optional sign, then leading
digits; any string with no leading digits yields 0. -/
def atoi (s : List Char) : Int := atoiSigned (s.dropWhile isSpaceChar)

/-- Digit character for a value below ten. -/
def digitChar (d : Nat) : Char := Char.ofNat (48 + d)

/-- Decimal digits of `n`, most significant first, with explicit fuel
(the recursion depth of `printf`-style conversion is at most `n + 1`). -/
def natToDigitsAux : Nat → Nat → List Char
  | 0, _ => []
  | fuel + 1, n =>
    if n < 10 then [digitChar n]
    else natToDigitsAux fuel (n / 10) ++ [digitChar (n % 10)]

/-- Decimal digits of a natural number, most significant first. -/
def natToDigits (n : Nat) : List Char := natToDigitsAux (n + 1) n

/-- The characters `sprintf`/`fprintf` emit for `%d`. -/
def intToDecimal (i : Int) : List Char :=
  if i < 0 then '-' :: natToDigits i.natAbs else natToDigits i.toNat

/-- `generateNewId` (servidor.c lines 146-155): one more than the running
maximum of the ids, the running maximum starting at 0. -/
def generateNewId (l : List Movie) : Int :=
  (l.foldl (fun acc m => if m.id > acc then m.id else acc) 0) + 1

/-- `findMovieIndexById` (servidor.c lines 158-165): index of the first
record with the given id, `none` replacing C's -1. -/
def findMovieIndexById (id : Int) : List Movie → Option Nat
  | [] => none
  | m :: rest =>
    if m.id = id then some 0 else (findMovieIndexById id rest).map (· + 1)

/-- Result of `registerMovie`: the catalog afterwards, whether
`saveMoviesToCSV` ran, and the id the success response reports (`none` for
the capacity-exceeded error response). -/
structure RegisterResult where
  catalog : List Movie
  saved : Bool
  newId : Option Int
deriving DecidableEq

/-- `registerMovie` (servidor.c lines 170-198). -/
def registerMovie (title director : List Char) (year : Int) (genres : List Char)
    (l : List Movie) : RegisterResult :=
  if l.length ≥ MAX_MOVIES then ⟨l, false, none⟩
  else
    let newId := generateNewId l
    ⟨l ++ [⟨newId, title, director, year, genres⟩], true, some newId⟩

/-- Result of a mutation addressed by id: the catalog afterwards, whether
`saveMoviesToCSV` ran, and whether the record was found (`false` means the
not-found error response). -/
structure MutateResult where
  catalog : List Movie
  saved : Bool
  found : Bool
deriving DecidableEq

/-- `addGenreToMovie` (servidor.c lines 201-222).  When the record is found,
lines 212-215 `strcat` a `';'` onto the stored genres if they are non-empty,
but line 216 then `strcpy`s `newGenre` to the start of the same buffer, so
the stored C string ends up equal to `newGenre` in both branches; the
embedding records that net effect. -/
def addGenreToMovie (id : Int) (newGenre : List Char) (l : List Movie) : MutateResult :=
  match findMovieIndexById id l with
  | none => ⟨l, false, false⟩
  | some index =>
    let m := l.getD index default
    ⟨l.set index { m with genres := newGenre }, true, true⟩

/-- `removeMovie` (servidor.c lines 225-244): copy the last record over the
removed slot and decrement the count (drop the last slot). -/
def removeMovie (id : Int) (l : List Movie) : MutateResult :=
  match findMovieIndexById id l with
  | none => ⟨l, false, false⟩
  | some index => ⟨(l.set index (l.getD (l.length - 1) default)).dropLast, true, true⟩

/-- `listMoviesByGenre` (servidor.c lines 305-338): the records whose genre
string contains the query, by C `strstr`.  We model the list of matched
records that the response dumps. -/
def startsWithChars : List Char → List Char → Bool
  | [], _ => true
  | _ :: _, [] => false
  | p :: ps, h :: hs => p == h && startsWithChars ps hs

/-- C `strstr` as a Bool: does `needle` occur contiguously in the second
argument? -/
def strstr (needle : List Char) : List Char → Bool
  | [] => startsWithChars needle []
  | h :: hs => startsWithChars needle (h :: hs) || strstr needle hs

def listMoviesByGenre (genre : List Char) (l : List Movie) : List Movie :=
  l.filter (fun m => strstr genre m.genres)

/-- One line of `saveMoviesToCSV` (servidor.c line 134):
`"%d,%s,%s,%d,%s"`. -/
def saveLine (m : Movie) : List Char :=
  intToDecimal m.id ++
    ',' :: (m.title ++ ',' :: (m.director ++ ',' :: (intToDecimal m.year ++
      ',' :: m.genres)))

/-- `saveMoviesToCSV` (servidor.c lines 123-143): the character stream
written to the file, one `'\n'`-terminated line per record in catalog
order. -/
def saveMoviesToCSV (l : List Movie) : List Char :=
  l.foldr (fun m acc => saveLine m ++ '\n' :: acc) []

/-- The lines `fgets` yields from a character stream: maximal `'\n'`-free
runs; a final run without a trailing newline is still a line, and nothing
follows the final newline of a newline-terminated stream. -/
def linesOf : List Char → List (List Char)
  | [] => []
  | c :: rest =>
    if c = '\n' then [] :: linesOf rest
    else
      match linesOf rest with
      | [] => [[c]]
      | l :: ls => (c :: l) :: ls

/-- Split at every occurrence of `sep`, keeping empty pieces. -/
def splitOnChar (sep : Char) : List Char → List (List Char)
  | [] => [[]]
  | c :: rest =>
    if c = sep then [] :: splitOnChar sep rest
    else
      match splitOnChar sep rest with
      | [] => [[c]]
      | l :: ls => (c :: l) :: ls

/-- The tokens C `strtok` yields for separator `sep`: maximal non-empty
runs of non-separator characters (runs of separators collapse). -/
def tokens (sep : Char) (l : List Char) : List (List Char) :=
  (splitOnChar sep l).filter (fun t => !t.isEmpty)

/-- Parsing of one CSV line (servidor.c lines 75-102): five successive
`strtok` tokens in the order id, title, director, year, genres, the line
being skipped (`none`) if any of the five calls returns NULL. -/
def parseLine (l : List Char) : Option Movie :=
  match tokens ',' l with
  | i :: t :: d :: y :: g :: _ => some ⟨atoi i, t, d, atoi y, g⟩
  | _ => none

/-- The record a ≥5-token line yields (used to restate `loadMoviesFromCSV`
as filter-then-map). -/
def recordOfLine (l : List Char) : Movie :=
  match tokens ',' l with
  | i :: t :: d :: y :: g :: _ => ⟨atoi i, t, d, atoi y, g⟩
  | _ => default

/-- `loadMoviesFromCSV` (servidor.c lines 58-120): a missing file (`none`)
yields the empty catalog; otherwise each line is parsed and parseable lines
are appended until `MAX_MOVIES` records are reached. -/
def loadMoviesFromCSV : Option (List Char) → List Movie
  | none => []
  | some content => ((linesOf content).filterMap parseLine).take MAX_MOVIES

/-- What one iteration of `handleClient` (servidor.c lines 350-512) does
with the received option line, before any field of a recognized operation
is read. -/
inductive ClientAction where
  | terminate : ClientAction
  | dispatch : Int → ClientAction
  | invalid : ClientAction
deriving DecidableEq

/-- The dispatch on `atoi(buffer)` (servidor.c lines 362-372 and 506-511):
0 breaks the loop; 1..7 enter the corresponding case; everything else falls
to the default branch. -/
def handleOption (line : List Char) : ClientAction :=
  let option := atoi line
  if option = 0 then ClientAction.terminate
  else if option = 1 then ClientAction.dispatch 1
  else if option = 2 then ClientAction.dispatch 2
  else if option = 3 then ClientAction.dispatch 3
  else if option = 4 then ClientAction.dispatch 4
  else if option = 5 then ClientAction.dispatch 5
  else if option = 6 then ClientAction.dispatch 6
  else if option = 7 then ClientAction.dispatch 7
  else ClientAction.invalid

/-- How many further fields each branch of the `switch` reads with `recv`
before responding (servidor.c lines 373-511). -/
def fieldsConsumed : ClientAction → Nat
  | ClientAction.terminate => 0
  | ClientAction.invalid => 0
  | ClientAction.dispatch o =>
    if o = 1 then 4
    else if o = 2 then 2
    else if o = 3 then 1
    else if o = 6 then 1
    else if o = 7 then 1
    else 0

/-- How many response messages each branch sends: the break on option 0
sends none; every `switch` branch, the default included, sends one. -/
def responseCount : ClientAction → Nat
  | ClientAction.terminate => 0
  | ClientAction.dispatch _ => 1
  | ClientAction.invalid => 1

/-- Whether the handler loops back to read another option line. -/
def continuesLoop : ClientAction → Bool
  | ClientAction.terminate => false
  | ClientAction.dispatch _ => true
  | ClientAction.invalid => true

/-- One catalog mutation, for stating invariants over operation
sequences. -/
inductive Op where
  | create (title director : List Char) (year : Int) (genres : List Char) : Op
  | remove (id : Int) : Op

/-- The catalog after one operation (failed operations leave it
unchanged). -/
def applyOp (l : List Movie) : Op → List Movie
  | Op.create t d y g => (registerMovie t d y g l).catalog
  | Op.remove id => (removeMovie id l).catalog

/-- The catalog after a sequence of operations. -/
def runOps (l : List Movie) (ops : List Op) : List Movie := ops.foldl applyOp l

/-- The specification's notion of literal substring containment
("contains `genre` as a literal substring"). -/
def specSubstring (needle hay : List Char) : Prop :=
  ∃ pre post, hay = pre ++ needle ++ post

/-- A field value that the flat CSV format can round-trip: non-empty, and
free of the field delimiter and of the record separator. -/
def cleanField (s : List Char) : Prop := s ≠ [] ∧ ',' ∉ s ∧ '\n' ∉ s

instance (s : List Char) : Decidable (cleanField s) := by
  unfold cleanField; infer_instance

/-! ### List index helpers -/

theorem set_append_len {α : Type} (A : List α) (b c : α) (B : List α) :
    (A ++ b :: B).set A.length c = A ++ c :: B := by
  induction A with
  | nil => rfl
  | cons a A ih => simp

theorem eraseIdx_append_len {α : Type} (A : List α) (b : α) (B : List α) :
    (A ++ b :: B).eraseIdx A.length = A ++ B := by
  induction A with
  | nil => rfl
  | cons a A ih => simpa using ih

theorem getD_append_len {α : Type} (A : List α) (b : α) (B : List α) (d : α) :
    (A ++ b :: B).getD A.length d = b := by
  induction A with
  | nil => rfl
  | cons a A ih => simpa using ih

theorem getD_set_len {α : Type} (l : List α) (i : Nat) (c d : α) (h : i < l.length) :
    (l.set i c).getD i d = c := by
  induction l generalizing i with
  | nil => simp at h
  | cons a t ih =>
    cases i with
    | zero => rfl
    | succ j => simpa using ih j (by simpa using h)

theorem takeDropDecomp {α : Type} (l : List α) (i : Nat) (d : α) (h : i < l.length) :
    l = l.take i ++ l.getD i d :: l.drop (i + 1) := by
  induction l generalizing i with
  | nil => simp at h
  | cons a t ih =>
    cases i with
    | zero => simp
    | succ j =>
      have := ih j (by simpa using h)
      simpa using this

theorem getD_cons_eraseIdx_perm {α : Type} (l : List α) (i : Nat) (d : α)
    (h : i < l.length) : (l.getD i d :: l.eraseIdx i).Perm l := by
  induction l generalizing i with
  | nil => simp at h
  | cons a t ih =>
    cases i with
    | zero => simp
    | succ j =>
      have hj : j < t.length := by simpa using h
      exact (List.Perm.swap a (t.getD j d) (t.eraseIdx j)).trans ((ih j hj).cons a)

/-! ### Decimal digits and `atoi` -/

theorem digitChar_spec (d : Nat) (h : d < 10) :
    isDigitChar (digitChar d) = true ∧ digitVal (digitChar d) = d := by
  interval_cases d <;> exact ⟨by decide, by decide⟩

theorem isDigitChar_facts {c : Char} (h : isDigitChar c = true) :
    isSpaceChar c = false ∧ c ≠ ',' ∧ c ≠ '\n' ∧ c ≠ '-' ∧ c ≠ '+' := by
  simp only [isDigitChar, Bool.and_eq_true, decide_eq_true_eq] at h
  obtain ⟨h1, h2⟩ := h
  refine ⟨?_, ?_, ?_, ?_, ?_⟩
  · simp only [isSpaceChar, Bool.or_eq_false_iff, Bool.and_eq_false_iff,
      decide_eq_false_iff_not]
    omega
  · intro hc; subst hc; revert h1 h2; decide
  · intro hc; subst hc; revert h1 h2; decide
  · intro hc; subst hc; revert h1 h2; decide
  · intro hc; subst hc; revert h1 h2; decide

theorem parseDigits_single (c : Char) (acc : Nat) (h : isDigitChar c = true) :
    parseDigits [c] acc = 10 * acc + digitVal c := by
  simp [parseDigits, h]

theorem parseDigits_append (a b : List Char) (acc : Nat)
    (h : ∀ c ∈ a, isDigitChar c = true) :
    parseDigits (a ++ b) acc = parseDigits b (parseDigits a acc) := by
  induction a generalizing acc with
  | nil => rfl
  | cons c cs ih =>
    have hc := h c (by simp)
    simp only [List.cons_append, parseDigits, hc, if_true]
    exact ih _ (fun x hx => h x (by simp [hx]))

theorem natToDigitsAux_small (fuel n : Nat) (h : n < 10) :
    natToDigitsAux (fuel + 1) n = [digitChar n] := by
  simp [natToDigitsAux, h]

theorem natToDigitsAux_facts :
    ∀ fuel n : Nat, n ≤ fuel →
      natToDigitsAux (fuel + 1) n ≠ [] ∧
      (∀ c ∈ natToDigitsAux (fuel + 1) n, isDigitChar c = true) ∧
      ∀ acc, parseDigits (natToDigitsAux (fuel + 1) n) acc =
        acc * 10 ^ (natToDigitsAux (fuel + 1) n).length + n := by
  intro fuel
  induction fuel with
  | zero =>
    intro n hn
    have hn0 : n = 0 := Nat.le_zero.mp hn
    subst hn0
    rw [natToDigitsAux_small 0 0 (by omega)]
    have hd := digitChar_spec 0 (by omega)
    refine ⟨by simp, by simpa using hd.1, ?_⟩
    intro acc
    rw [parseDigits_single _ _ hd.1, hd.2]
    simp
    omega
  | succ f ih =>
    intro n hn
    by_cases h10 : n < 10
    · rw [natToDigitsAux_small (f + 1) n h10]
      have hd := digitChar_spec n h10
      refine ⟨by simp, by simpa using hd.1, ?_⟩
      intro acc
      rw [parseDigits_single _ _ hd.1, hd.2]
      simp
      omega
    · have hrec : natToDigitsAux (f + 1 + 1) n =
          natToDigitsAux (f + 1) (n / 10) ++ [digitChar (n % 10)] := by
        simp [natToDigitsAux, h10]
      have hdiv : n / 10 ≤ f := by omega
      obtain ⟨hne, hdig, hparse⟩ := ih (n / 10) hdiv
      have hd := digitChar_spec (n % 10) (by omega)
      refine ⟨by simp [hrec], ?_, ?_⟩
      · intro c hc
        rw [hrec] at hc
        rcases List.mem_append.mp hc with h1 | h1
        · exact hdig c h1
        · rw [List.mem_singleton.mp h1]; exact hd.1
      · intro acc
        rw [hrec, parseDigits_append _ _ _ hdig, parseDigits_single _ _ hd.1, hd.2,
          hparse acc]
        have hlen : (natToDigitsAux (f + 1) (n / 10) ++ [digitChar (n % 10)]).length =
            (natToDigitsAux (f + 1) (n / 10)).length + 1 := by simp
        rw [hlen, pow_succ, ← mul_assoc]
        generalize acc * 10 ^ (natToDigitsAux (f + 1) (n / 10)).length = X
        omega

theorem natToDigits_ne_nil (n : Nat) : natToDigits n ≠ [] :=
  (natToDigitsAux_facts n n (Nat.le_refl n)).1

theorem natToDigits_digits (n : Nat) :
    ∀ c ∈ natToDigits n, isDigitChar c = true :=
  (natToDigitsAux_facts n n (Nat.le_refl n)).2.1

theorem parseDigits_natToDigits (n : Nat) : parseDigits (natToDigits n) 0 = n := by
  have := (natToDigitsAux_facts n n (Nat.le_refl n)).2.2 0
  simpa [natToDigits] using this

theorem intToDecimal_ne_nil (i : Int) : intToDecimal i ≠ [] := by
  unfold intToDecimal
  split
  · simp
  · exact natToDigits_ne_nil _

theorem intToDecimal_chars {i : Int} {c : Char} (h : c ∈ intToDecimal i) :
    c ≠ ',' ∧ c ≠ '\n' := by
  unfold intToDecimal at h
  split at h
  · rcases List.mem_cons.mp h with h1 | h1
    · subst h1; exact ⟨by decide, by decide⟩
    · have := isDigitChar_facts (natToDigits_digits _ _ h1)
      exact ⟨this.2.1, this.2.2.1⟩
  · have := isDigitChar_facts (natToDigits_digits _ _ h)
    exact ⟨this.2.1, this.2.2.1⟩

theorem atoi_intToDecimal (i : Int) : atoi (intToDecimal i) = i := by
  unfold atoi intToDecimal
  by_cases hneg : i < 0
  · rw [if_pos hneg, List.dropWhile_cons, if_neg (by decide)]
    have : atoiSigned ('-' :: natToDigits i.natAbs) =
        -(parseDigits (natToDigits i.natAbs) 0 : Int) := by
      simp [atoiSigned]
    rw [this, parseDigits_natToDigits]
    omega
  · rw [if_neg hneg]
    obtain ⟨c, cs, hcs⟩ := List.exists_cons_of_ne_nil (natToDigits_ne_nil i.toNat)
    have hcdig : isDigitChar c = true := by
      apply natToDigits_digits i.toNat
      rw [hcs]; simp
    obtain ⟨hsp, -, -, hminus, hplus⟩ := isDigitChar_facts hcdig
    rw [hcs, List.dropWhile_cons, if_neg (by simp [hsp])]
    have : atoiSigned (c :: cs) = (parseDigits (c :: cs) 0 : Int) := by
      simp [atoiSigned, hminus, hplus]
    rw [this, ← hcs, parseDigits_natToDigits]
    omega

theorem atoi_not_numeric (c : Char) (cs : List Char)
    (hdig : isDigitChar c = false) (hsp : isSpaceChar c = false)
    (hminus : c ≠ '-') (hplus : c ≠ '+') : atoi (c :: cs) = 0 := by
  unfold atoi
  rw [List.dropWhile_cons, if_neg (by simp [hsp])]
  simp [atoiSigned, hminus, hplus, parseDigits, hdig]

/-! ### Lookup, id generation and removal -/

theorem findMovieIndexById_some {id : Int} :
    ∀ {l : List Movie} {i : Nat}, findMovieIndexById id l = some i →
      i < l.length ∧ (l.getD i default).id = id := by
  intro l
  induction l with
  | nil => intro i h; simp [findMovieIndexById] at h
  | cons m t ih =>
    intro i h
    rw [findMovieIndexById] at h
    by_cases hm : m.id = id
    · rw [if_pos hm] at h
      have h0 : i = 0 := (Option.some.inj h).symm
      subst h0
      exact ⟨by simp, by simpa using hm⟩
    · rw [if_neg hm] at h
      obtain ⟨j, hj, hji⟩ := Option.map_eq_some'.mp h
      subst hji
      obtain ⟨hlt, hid⟩ := ih hj
      exact ⟨by simpa using hlt, by simpa using hid⟩

theorem findMovieIndexById_none {id : Int} :
    ∀ {l : List Movie}, findMovieIndexById id l = none ↔ ∀ m ∈ l, m.id ≠ id := by
  intro l
  induction l with
  | nil => simp [findMovieIndexById]
  | cons m t ih =>
    rw [findMovieIndexById]
    by_cases hm : m.id = id
    · simp [hm]
    · simp [hm, Option.map_eq_none', ih]

theorem foldl_maxStep_ge_init :
    ∀ (l : List Movie) (a : Int),
      a ≤ l.foldl (fun acc m => if m.id > acc then m.id else acc) a := by
  intro l
  induction l with
  | nil => intro a; simp
  | cons m t ih =>
    intro a
    have h1 : a ≤ (if m.id > a then m.id else a) := by split <;> omega
    simpa using le_trans h1 (ih _)

theorem id_le_foldl_maxStep :
    ∀ (l : List Movie) (a : Int) (m : Movie), m ∈ l →
      m.id ≤ l.foldl (fun acc m => if m.id > acc then m.id else acc) a := by
  intro l
  induction l with
  | nil => intro a m h; simp at h
  | cons x t ih =>
    intro a m h
    rcases List.mem_cons.mp h with rfl | h
    · simp only [List.foldl_cons]
      exact le_trans (by split <;> omega) (foldl_maxStep_ge_init t _)
    · simp only [List.foldl_cons]
      exact ih _ m h

theorem foldl_maxStep_attained :
    ∀ (l : List Movie) (a : Int),
      l.foldl (fun acc m => if m.id > acc then m.id else acc) a = a ∨
        ∃ m ∈ l, l.foldl (fun acc m => if m.id > acc then m.id else acc) a = m.id := by
  intro l
  induction l with
  | nil => intro a; left; rfl
  | cons x t ih =>
    intro a
    simp only [List.foldl_cons]
    rcases ih (if x.id > a then x.id else a) with h | ⟨m, hm, e⟩
    · by_cases hx : x.id > a
      · right; exact ⟨x, by simp, by rw [h, if_pos hx]⟩
      · left; rw [h, if_neg hx]
    · right; exact ⟨m, by simp [hm], e⟩

theorem generateNewId_pos (l : List Movie) : 1 ≤ generateNewId l := by
  unfold generateNewId
  have := foldl_maxStep_ge_init l 0
  omega

theorem lt_generateNewId {l : List Movie} {m : Movie} (h : m ∈ l) :
    m.id < generateNewId l := by
  unfold generateNewId
  have := id_le_foldl_maxStep l 0 m h
  omega

theorem generateNewId_attained (l : List Movie) :
    generateNewId l = 1 ∨ ∃ m ∈ l, m.id = generateNewId l - 1 := by
  unfold generateNewId
  rcases foldl_maxStep_attained l 0 with h | ⟨m, hm, e⟩
  · left; rw [h]; omega
  · right; exact ⟨m, hm, by omega⟩


theorem append_cons_length_facts {α : Type} (A : List α) (b : α) (B : List α) :
    (A ++ b :: B).length = A.length + B.length + 1 := by
  simp only [List.length_append, List.length_cons]
  omega

theorem removeMovie_some (id : Int) (l : List Movie) (i : Nat)
    (h : findMovieIndexById id l = some i) :
    (removeMovie id l).catalog.Perm (l.eraseIdx i) ∧
      (removeMovie id l).saved = true ∧ (removeMovie id l).found = true ∧
      (removeMovie id l).catalog.length + 1 = l.length ∧
      (i + 1 < l.length →
        (removeMovie id l).catalog.getD i default = l.getD (l.length - 1) default) := by
  obtain ⟨hi, -⟩ := findMovieIndexById_some h
  have hcat : (removeMovie id l).catalog =
      (l.set i (l.getD (l.length - 1) default)).dropLast := by
    rw [removeMovie, h]
  have hsf : (removeMovie id l).saved = true ∧ (removeMovie id l).found = true := by
    rw [removeMovie, h]; exact ⟨rfl, rfl⟩
  obtain ⟨A, b, B, hdec, hA⟩ : ∃ A b B, l = A ++ b :: B ∧ A.length = i :=
    ⟨l.take i, l.getD i default, l.drop (i + 1), takeDropDecomp l i default hi,
      by rw [List.length_take]; omega⟩
  subst hdec
  subst hA
  rcases List.eq_nil_or_concat B with rfl | ⟨M, c, hB⟩
  · -- the removed slot is the last slot: the copy is a self-copy
    have hlen : (A ++ [b]).length = A.length + 1 := by simp
    have hlast : (A ++ [b]).getD ((A ++ [b]).length - 1) default = b := by
      rw [hlen, Nat.add_sub_cancel]
      exact getD_append_len A b [] default
    have hcat2 : (removeMovie id (A ++ [b])).catalog = A := by
      rw [hcat, hlast, set_append_len A b b []]
      exact List.dropLast_concat
    have herase : (A ++ [b]).eraseIdx A.length = A := by
      rw [eraseIdx_append_len A b [], List.append_nil]
    refine ⟨by rw [hcat2, herase], hsf.1, hsf.2, by rw [hcat2, hlen], ?_⟩
    intro hfalse
    rw [hlen] at hfalse
    omega
  · -- a later slot exists: the last record lands in slot i
    rw [List.concat_eq_append] at hB
    subst hB
    have hlen : (A ++ b :: (M ++ [c])).length = A.length + M.length + 2 := by
      rw [append_cons_length_facts]; simp only [List.length_append,
        List.length_singleton]; omega
    have hre : A ++ b :: (M ++ [c]) = (A ++ b :: M) ++ c :: [] := by simp
    have hpre : (A ++ b :: M).length = A.length + M.length + 1 := by
      rw [append_cons_length_facts]
    have hlast : (A ++ b :: (M ++ [c])).getD ((A ++ b :: (M ++ [c])).length - 1)
        default = c := by
      rw [hlen, hre, show A.length + M.length + 2 - 1 = (A ++ b :: M).length from by
        rw [hpre]; omega]
      exact getD_append_len _ _ _ _
    have hset : (A ++ b :: (M ++ [c])).set A.length c = A ++ c :: (M ++ [c]) :=
      set_append_len _ _ _ _
    have hcat2 : (removeMovie id (A ++ b :: (M ++ [c]))).catalog = A ++ c :: M := by
      rw [hcat, hlast, hset,
        show A ++ c :: (M ++ [c]) = (A ++ c :: M) ++ [c] from by simp]
      exact List.dropLast_concat
    have herase : (A ++ b :: (M ++ [c])).eraseIdx A.length = A ++ (M ++ [c]) :=
      eraseIdx_append_len _ _ _
    refine ⟨?_, hsf.1, hsf.2, ?_, ?_⟩
    · rw [hcat2, herase]
      exact List.Perm.append_left _ (List.perm_append_singleton c M).symm
    · rw [hcat2, hlen, append_cons_length_facts]
    · intro _
      rw [hcat2, hlast]
      exact getD_append_len _ _ _ _

theorem removeMovie_none (id : Int) (l : List Movie)
    (h : findMovieIndexById id l = none) :
    removeMovie id l = ⟨l, false, false⟩ := by
  rw [removeMovie, h]

/-! ### Tokenizing and line splitting -/

theorem splitOnChar_append_sep (sep : Char) :
    ∀ (a rest : List Char), sep ∉ a →
      splitOnChar sep (a ++ sep :: rest) = a :: splitOnChar sep rest := by
  intro a
  induction a with
  | nil => intro rest h; simp [splitOnChar]
  | cons c cs ih =>
    intro rest h
    have hc : ¬(c = sep) := fun e => h (by simp [e])
    have hcs : sep ∉ cs := fun hm => h (List.mem_cons_of_mem c hm)
    simp only [List.cons_append, splitOnChar, if_neg hc, List.append_eq, ih rest hcs]

theorem splitOnChar_no_sep (sep : Char) :
    ∀ l : List Char, sep ∉ l → splitOnChar sep l = [l] := by
  intro l
  induction l with
  | nil => intro h; rfl
  | cons c cs ih =>
    intro h
    have hc : ¬(c = sep) := fun e => h (by simp [e])
    have hcs : sep ∉ cs := fun hm => h (List.mem_cons_of_mem c hm)
    simp only [splitOnChar, if_neg hc, ih hcs]

theorem tokens_append_sep (sep : Char) (a rest : List Char) (ha : sep ∉ a)
    (hne : a ≠ []) : tokens sep (a ++ sep :: rest) = a :: tokens sep rest := by
  unfold tokens
  rw [splitOnChar_append_sep sep a rest ha, List.filter_cons]
  simp [List.isEmpty_iff, hne]

theorem tokens_no_sep (sep : Char) (l : List Char) (h : sep ∉ l) (hne : l ≠ []) :
    tokens sep l = [l] := by
  unfold tokens
  rw [splitOnChar_no_sep sep l h, List.filter_cons]
  simp [List.isEmpty_iff, hne]

theorem linesOf_append (a rest : List Char) (h : '\n' ∉ a) :
    linesOf (a ++ '\n' :: rest) = a :: linesOf rest := by
  induction a with
  | nil => simp [linesOf]
  | cons c cs ih =>
    have hc : ¬(c = '\n') := fun e => h (by simp [e])
    have hcs : '\n' ∉ cs := fun hm => h (List.mem_cons_of_mem c hm)
    simp only [List.cons_append, linesOf, if_neg hc, List.append_eq, ih hcs]

/-! ### Save and load -/

theorem mem_saveLine {c : Char} {m : Movie} (h : c ∈ saveLine m) :
    c ∈ intToDecimal m.id ∨ c = ',' ∨ c ∈ m.title ∨ c ∈ m.director ∨
      c ∈ intToDecimal m.year ∨ c ∈ m.genres := by
  unfold saveLine at h
  simp only [List.mem_append, List.mem_cons] at h
  tauto

theorem saveLine_no_newline (m : Movie) (ht : '\n' ∉ m.title)
    (hd : '\n' ∉ m.director) (hg : '\n' ∉ m.genres) : '\n' ∉ saveLine m := by
  intro hmem
  rcases mem_saveLine hmem with h | h | h | h | h | h
  · exact (intToDecimal_chars h).2 rfl
  · exact absurd h (by decide)
  · exact ht h
  · exact hd h
  · exact (intToDecimal_chars h).2 rfl
  · exact hg h

theorem tokens_saveLine (m : Movie) (hT : cleanField m.title)
    (hD : cleanField m.director) (hG : cleanField m.genres) :
    tokens ',' (saveLine m) =
      [intToDecimal m.id, m.title, m.director, intToDecimal m.year, m.genres] := by
  have hid : ',' ∉ intToDecimal m.id := fun h => (intToDecimal_chars h).1 rfl
  have hyr : ',' ∉ intToDecimal m.year := fun h => (intToDecimal_chars h).1 rfl
  unfold saveLine
  rw [tokens_append_sep ',' _ _ hid (intToDecimal_ne_nil _),
    tokens_append_sep ',' _ _ hT.2.1 hT.1,
    tokens_append_sep ',' _ _ hD.2.1 hD.1,
    tokens_append_sep ',' _ _ hyr (intToDecimal_ne_nil _),
    tokens_no_sep ',' _ hG.2.1 hG.1]

theorem parseLine_saveLine (m : Movie) (hT : cleanField m.title)
    (hD : cleanField m.director) (hG : cleanField m.genres) :
    parseLine (saveLine m) = some m := by
  unfold parseLine
  rw [tokens_saveLine m hT hD hG]
  simp only [atoi_intToDecimal]

theorem filterMap_linesOf_save (l : List Movie)
    (hclean : ∀ m ∈ l, cleanField m.title ∧ cleanField m.director ∧
      cleanField m.genres) :
    (linesOf (saveMoviesToCSV l)).filterMap parseLine = l := by
  induction l with
  | nil => rfl
  | cons m t ih =>
    obtain ⟨hT, hD, hG⟩ := hclean m (by simp)
    have hnl : '\n' ∉ saveLine m := saveLine_no_newline m hT.2.2 hD.2.2 hG.2.2
    have hstep : saveMoviesToCSV (m :: t) = saveLine m ++ '\n' :: saveMoviesToCSV t :=
      rfl
    rw [hstep, linesOf_append _ _ hnl, List.filterMap_cons,
      parseLine_saveLine m hT hD hG, ih (fun x hx => hclean x (by simp [hx]))]

theorem parseLine_short (ln : List Char) (h : (tokens ',' ln).length < 5) :
    parseLine ln = none := by
  unfold parseLine
  rcases hts : tokens ',' ln with _ | ⟨a, _ | ⟨b, _ | ⟨c, _ | ⟨d, _ | ⟨e, r⟩⟩⟩⟩⟩ <;>
    first
      | rfl
      | (rw [hts] at h; simp at h; omega)

theorem parseLine_long (ln : List Char) (i t d y g : List Char)
    (rest : List (List Char)) (h : tokens ',' ln = i :: t :: d :: y :: g :: rest) :
    parseLine ln = some ⟨atoi i, t, d, atoi y, g⟩ := by
  unfold parseLine
  rw [h]

theorem filterMap_parseLine_eq (L : List (List Char)) :
    L.filterMap parseLine =
      (L.filter (fun ln => decide (5 ≤ (tokens ',' ln).length))).map recordOfLine := by
  induction L with
  | nil => rfl
  | cons ln L ih =>
    rw [List.filterMap_cons, List.filter_cons]
    by_cases h5 : 5 ≤ (tokens ',' ln).length
    · rcases hts : tokens ',' ln with _ | ⟨a, _ | ⟨b, _ | ⟨c, _ | ⟨d, _ | ⟨e, r⟩⟩⟩⟩⟩ <;>
        (try (rw [hts] at h5; simp at h5))
      rw [parseLine_long ln a b c d e r hts]
      have : recordOfLine ln = ⟨atoi a, b, c, atoi d, e⟩ := by
        unfold recordOfLine
        rw [hts]
      have hlen5 : (5 : Nat) ≤ (a :: b :: c :: d :: e :: r).length := by
        simp only [List.length_cons]
        omega
      simp only [decide_eq_true hlen5, if_true, List.map_cons, this, ih]
    · have hnone := parseLine_short ln (by omega)
      rw [hnone]
      simp only [decide_eq_false h5, Bool.false_eq_true, if_false, ih]

/-! ### Substring search -/

theorem startsWithChars_iff (n : List Char) :
    ∀ h : List Char, startsWithChars n h = true ↔ ∃ rest, h = n ++ rest := by
  induction n with
  | nil =>
    intro h
    simp [startsWithChars]
  | cons p ps ih =>
    intro h
    cases h with
    | nil =>
      simp [startsWithChars]
    | cons c cs =>
      rw [startsWithChars]
      simp only [Bool.and_eq_true, beq_iff_eq, ih cs]
      constructor
      · rintro ⟨rfl, rest, rfl⟩
        exact ⟨rest, rfl⟩
      · rintro ⟨rest, hres⟩
        obtain ⟨h1, h2⟩ := List.cons.inj hres
        exact ⟨h1.symm, rest, h2⟩

theorem strstr_iff (n : List Char) :
    ∀ h : List Char, strstr n h = true ↔ specSubstring n h := by
  intro h
  induction h with
  | nil =>
    rw [strstr]
    rw [startsWithChars_iff]
    constructor
    · rintro ⟨rest, hres⟩
      exact ⟨[], rest, hres⟩
    · rintro ⟨pre, post, hres⟩
      have hpre : pre = [] := by
        cases pre with
        | nil => rfl
        | cons a b => simp at hres
      subst hpre
      exact ⟨post, by simpa using hres⟩
  | cons c cs ih =>
    rw [strstr]
    simp only [Bool.or_eq_true, startsWithChars_iff, ih]
    constructor
    · rintro (⟨rest, hres⟩ | ⟨pre, post, hres⟩)
      · exact ⟨[], rest, by simpa using hres⟩
      · exact ⟨c :: pre, post, by simp [hres]⟩
    · rintro ⟨pre, post, hres⟩
      cases pre with
      | nil =>
        left
        exact ⟨post, by simpa using hres⟩
      | cons a b =>
        right
        obtain ⟨h1, h2⟩ := List.cons.inj hres
        exact ⟨b, post, h2⟩

/-! ### Claims -/

/-- C1: the spec claims that `addGenre(id, genre)` on a record with a
non-empty genre list appends `genre` after the prior genres with the `';'`
delimiter, preserving them.  The code intends this (servidor.c:212-215
concatenates `';'` exactly when the stored genres are non-empty, as its
comment says) but the `strcpy` at servidor.c:216 then overwrites the buffer
from the start; on the catalog whose only record has id 1 and genres
"Comedy", `addGenre(1, "Drama")` therefore stores genres "Drama" rather
than "Comedy;Drama", discarding the prior genres. -/
theorem c1_addGenre_discards_prior_genres :
    (addGenreToMovie 1 "Drama".toList
        [⟨1, "Inception".toList, "Nolan".toList, 2010, "Comedy".toList⟩]).catalog =
      [⟨1, "Inception".toList, "Nolan".toList, 2010, "Drama".toList⟩] ∧
    (addGenreToMovie 1 "Drama".toList
        [⟨1, "Inception".toList, "Nolan".toList, 2010, "Comedy".toList⟩]).catalog ≠
      [⟨1, "Inception".toList, "Nolan".toList, 2010, "Comedy;Drama".toList⟩] := by
  decide

/-- C2: on a catalog record with an empty genre list, found by its id,
`addGenre(id, "Drama")` leaves that record's genre list exactly "Drama",
with no leading ';' delimiter. -/
theorem c2_addGenre_empty_no_leading_delim (l : List Movie) (id : Int) (i : Nat)
    (hfind : findMovieIndexById id l = some i)
    (_hempty : (l.getD i default).genres = []) :
    ((addGenreToMovie id "Drama".toList l).catalog.getD i default).genres =
      "Drama".toList := by
  obtain ⟨hi, -⟩ := findMovieIndexById_some hfind
  have hcat : (addGenreToMovie id "Drama".toList l).catalog =
      l.set i { l.getD i default with genres := "Drama".toList } := by
    rw [addGenreToMovie, hfind]
  rw [hcat, getD_set_len _ _ _ _ hi]

/-- Witness for C2: a concrete record with no prior genres gets exactly
"Drama". -/
theorem c2_witness :
    ((addGenreToMovie 1 "Drama".toList
        [⟨1, "T".toList, "D".toList, 2000, []⟩]).catalog.getD 0 default).genres =
      "Drama".toList :=
  c2_addGenre_empty_no_leading_delim [⟨1, "T".toList, "D".toList, 2000, []⟩] 1 0
    (by decide) (by decide)

/-- C3 counterexample: on the below-capacity catalog whose only record has
id -3 (reachable by loading a CSV line "-3,A,B,1999,C"), the claimed formula
max(existing ids) + 1 yields -2, but `registerMovie` assigns id 1, because
`generateNewId` starts its running maximum at 0 rather than at the existing
ids. -/
theorem c3_counterexample :
    (registerMovie "T".toList "D".toList 2000 "G".toList
        [⟨-3, "A".toList, "B".toList, 1999, "C".toList⟩]).newId = some 1 ∧
    (registerMovie "T".toList "D".toList 2000 "G".toList
        [⟨-3, "A".toList, "B".toList, 1999, "C".toList⟩]).newId ≠
      some ((-3 : Int) + 1) := by
  decide

/-- C3 (amended): for every catalog below capacity, `create` appends a
record whose id `j` satisfies `1 ≤ j`, `j` exceeds every live id, and
`j - 1` is 0 or a live id — that is, `j = max(existing ids ∪ {0}) + 1`,
which equals max(existing ids) + 1 whenever some live id is non-negative,
and equals 1 on the empty catalog.  Consequently an id freed by a removal
is assigned again only if it was the maximum live id: if the catalog arose
by removing the record with id `x` and create assigns exactly `x`, then `x`
bounded every id of the pre-removal catalog. -/
theorem c3_create_id_assignment (l : List Movie) (t d : List Char) (y : Int)
    (g : List Char) (hlen : l.length < MAX_MOVIES) :
    ∃ j : Int,
      (registerMovie t d y g l).newId = some j ∧
      (registerMovie t d y g l).catalog = l ++ [⟨j, t, d, y, g⟩] ∧
      1 ≤ j ∧ (∀ m ∈ l, m.id < j) ∧ (j = 1 ∨ ∃ m ∈ l, m.id = j - 1) ∧
      (l = [] → j = 1) ∧
      ∀ (x : Int) (l0 : List Movie) (i : Nat),
        findMovieIndexById x l0 = some i → (removeMovie x l0).catalog = l →
        j = x → ∀ m ∈ l0, m.id ≤ x := by
  have hnotge : ¬(l.length ≥ MAX_MOVIES) := by omega
  refine ⟨generateNewId l, ?_, ?_, generateNewId_pos l,
    fun m hm => lt_generateNewId hm, generateNewId_attained l, ?_, ?_⟩
  · rw [registerMovie, if_neg hnotge]
  · rw [registerMovie, if_neg hnotge]
  · intro he
    subst he
    decide
  · intro x l0 i hfind hrem hjx m hm
    obtain ⟨hi, hidx⟩ := findMovieIndexById_some hfind
    have hp := getD_cons_eraseIdx_perm l0 i default hi
    rcases List.mem_cons.mp (hp.symm.mem_iff.mp hm) with hcase | hcase
    · rw [hcase, hidx]
    · have hperm := (removeMovie_some x l0 i hfind).1
      have hml : m ∈ l := by
        rw [← hrem]
        exact hperm.symm.mem_iff.mp hcase
      have := lt_generateNewId hml
      omega

/-- Witness for C3 on a concrete one-record catalog. -/
theorem c3_witness :
    ∃ j : Int,
      (registerMovie "T".toList "D".toList 2000 "G".toList
          [⟨1, "A".toList, "B".toList, 1999, "C".toList⟩]).newId = some j ∧
      (registerMovie "T".toList "D".toList 2000 "G".toList
          [⟨1, "A".toList, "B".toList, 1999, "C".toList⟩]).catalog =
        [⟨1, "A".toList, "B".toList, 1999, "C".toList⟩] ++
          [⟨j, "T".toList, "D".toList, 2000, "G".toList⟩] ∧
      1 ≤ j ∧
      (∀ m ∈ [(⟨1, "A".toList, "B".toList, 1999, "C".toList⟩ : Movie)], m.id < j) ∧
      (j = 1 ∨ ∃ m ∈ [(⟨1, "A".toList, "B".toList, 1999, "C".toList⟩ : Movie)],
        m.id = j - 1) ∧
      ([(⟨1, "A".toList, "B".toList, 1999, "C".toList⟩ : Movie)] = [] → j = 1) ∧
      ∀ (x : Int) (l0 : List Movie) (i : Nat),
        findMovieIndexById x l0 = some i →
        (removeMovie x l0).catalog =
          [(⟨1, "A".toList, "B".toList, 1999, "C".toList⟩ : Movie)] →
        j = x → ∀ m ∈ l0, m.id ≤ x :=
  c3_create_id_assignment [⟨1, "A".toList, "B".toList, 1999, "C".toList⟩]
    "T".toList "D".toList 2000 "G".toList (by decide)

/-- C4: creating on a catalog whose size equals `MAX_MOVIES` yields the
capacity-exceeded error, leaves the catalog unchanged, and performs no
persistence write. -/
theorem c4_capacity_exceeded (l : List Movie) (t d : List Char) (y : Int)
    (g : List Char) (h : l.length = MAX_MOVIES) :
    registerMovie t d y g l = ⟨l, false, none⟩ := by
  rw [registerMovie, if_pos (by omega)]

/-- Witness for C4 at a full catalog of 1000 default records. -/
theorem c4_witness :
    registerMovie "T".toList "D".toList 2000 "G".toList
        (List.replicate 1000 (default : Movie)) =
      ⟨List.replicate 1000 (default : Movie), false, none⟩ :=
  c4_capacity_exceeded _ _ _ _ _ (by rw [List.length_replicate, MAX_MOVIES])

/-- C5: removing a present id overwrites the removed slot with the
catalog's last record, shrinks the count by one, and leaves exactly the
remaining records (the original records minus the removed occurrence, as a
permutation); removing an absent id fails and leaves the catalog unchanged
with no persistence write. -/
theorem c5_remove_swap_with_last (l : List Movie) (id : Int) :
    (findMovieIndexById id l = none ↔ ∀ m ∈ l, m.id ≠ id) ∧
    (findMovieIndexById id l = none → removeMovie id l = ⟨l, false, false⟩) ∧
    ∀ i, findMovieIndexById id l = some i →
      (removeMovie id l).catalog.length + 1 = l.length ∧
      (removeMovie id l).catalog.Perm (l.eraseIdx i) ∧
      (i + 1 < l.length →
        (removeMovie id l).catalog.getD i default =
          l.getD (l.length - 1) default) ∧
      (removeMovie id l).saved = true := by
  refine ⟨findMovieIndexById_none, removeMovie_none id l, ?_⟩
  intro i h
  obtain ⟨hperm, hsaved, -, hlen, hslot⟩ := removeMovie_some id l i h
  exact ⟨hlen, hperm, hslot, hsaved⟩

/-- Witness for C5: removing id 1 from a three-record catalog, and removing
an absent id 9 from a singleton. -/
theorem c5_witness :
    (removeMovie 1 [⟨1, [], [], 0, []⟩, ⟨2, [], [], 0, []⟩,
        ⟨3, [], [], 0, []⟩]).catalog.Perm
      ([⟨1, [], [], 0, []⟩, ⟨2, [], [], 0, []⟩, ⟨3, [], [], 0, []⟩].eraseIdx 0) ∧
    removeMovie 9 [⟨1, [], [], 0, []⟩] = ⟨[⟨1, [], [], 0, []⟩], false, false⟩ :=
  ⟨((c5_remove_swap_with_last
      [⟨1, [], [], 0, []⟩, ⟨2, [], [], 0, []⟩, ⟨3, [], [], 0, []⟩] 1).2.2 0
      (by decide)).2.1,
    (c5_remove_swap_with_last [⟨1, [], [], 0, []⟩] 9).2.1 (by decide)⟩

/-- One create or remove step preserves pairwise-distinct live ids. -/
theorem applyOp_nodup (l : List Movie) (op : Op)
    (h : (l.map Movie.id).Nodup) : ((applyOp l op).map Movie.id).Nodup := by
  cases op with
  | create t d y g =>
    rw [applyOp]
    by_cases hcap : l.length ≥ MAX_MOVIES
    · rw [registerMovie, if_pos hcap]
      exact h
    · rw [registerMovie, if_neg hcap]
      simp only [List.map_append, List.map_cons, List.map_nil]
      rw [List.nodup_append]
      refine ⟨h, by simp, ?_⟩
      intro a ha hb
      simp only [List.mem_cons, List.not_mem_nil, or_false] at hb
      subst hb
      obtain ⟨m, hm, hma⟩ := List.mem_map.mp ha
      have := lt_generateNewId hm
      omega
  | remove id =>
    rw [applyOp]
    rcases hfind : findMovieIndexById id l with _ | i
    · rw [removeMovie_none id l hfind]
      exact h
    · have hperm := (removeMovie_some id l i hfind).1
      have hsub : (l.eraseIdx i).Sublist l := List.eraseIdx_sublist l i
      have hnodup : ((l.eraseIdx i).map Movie.id).Nodup :=
        (hsub.map Movie.id).nodup h
      exact (hperm.map Movie.id).symm.nodup hnodup

/-- C6: after any finite sequence of create and remove operations starting
from a catalog with pairwise-distinct ids, the live ids remain pairwise
distinct. -/
theorem c6_id_uniqueness (l : List Movie) (ops : List Op)
    (h : (l.map Movie.id).Nodup) : ((runOps l ops).map Movie.id).Nodup := by
  induction ops generalizing l with
  | nil => exact h
  | cons op ops ih =>
    have hstep : runOps l (op :: ops) = runOps (applyOp l op) ops := rfl
    rw [hstep]
    exact ih _ (applyOp_nodup l op h)

/-- Witness for C6 on a concrete catalog and operation sequence. -/
theorem c6_witness :
    ((runOps [⟨1, [], [], 0, []⟩]
        [Op.create "T".toList "D".toList 2000 "G".toList,
          Op.remove 1]).map Movie.id).Nodup :=
  c6_id_uniqueness _ _ (by decide)

/-- C7 counterexample: the catalog whose only record has an empty title has
no delimiter character in any field, yet `load(save(catalog))` is the empty
catalog: the saved line "1,,D,2000,G" has adjacent delimiters, `strtok`
collapses them to four tokens, and the loader skips the line, losing the
record. -/
theorem c7_counterexample :
    (∀ m ∈ [(⟨1, [], "D".toList, 2000, "G".toList⟩ : Movie)],
        ',' ∉ m.title ∧ ',' ∉ m.director ∧ ',' ∉ m.genres) ∧
    loadMoviesFromCSV (some (saveMoviesToCSV
        [⟨1, [], "D".toList, 2000, "G".toList⟩])) = [] ∧
    loadMoviesFromCSV (some (saveMoviesToCSV
        [⟨1, [], "D".toList, 2000, "G".toList⟩])) ≠
      [⟨1, [], "D".toList, 2000, "G".toList⟩] := by
  decide

/-- C7 (amended): for every catalog whose title, director and genres fields
are non-empty and free of the field delimiter ',' and of the newline record
separator, `load(save(catalog))` yields exactly the original records. -/
theorem c7_save_load_roundtrip (l : List Movie) (hlen : l.length ≤ MAX_MOVIES)
    (hclean : ∀ m ∈ l, cleanField m.title ∧ cleanField m.director ∧
      cleanField m.genres) :
    loadMoviesFromCSV (some (saveMoviesToCSV l)) = l := by
  rw [loadMoviesFromCSV, filterMap_linesOf_save l hclean]
  exact List.take_of_length_le hlen

/-- Witness for C7 on a concrete clean catalog. -/
theorem c7_witness :
    loadMoviesFromCSV (some (saveMoviesToCSV
        [⟨1, "T".toList, "D".toList, 2000, "G".toList⟩])) =
      [⟨1, "T".toList, "D".toList, 2000, "G".toList⟩] :=
  c7_save_load_roundtrip _ (by decide) (by decide)

/-- C8: `load` of a missing file is the empty catalog; otherwise it keeps,
in order, one record per line having at least the five `strtok` fields
(id, title, director, year, genres), up to the capacity bound, skipping
shorter lines silently; a line with at least five tokens parses into the
record built from the first five with `atoi` on the numeric fields; and
`atoi` coerces any field that starts with no digit (and no sign or blank)
to 0 instead of rejecting it. -/
theorem c8_load_tolerant_parse :
    loadMoviesFromCSV none = [] ∧
    (∀ content : List Char,
      loadMoviesFromCSV (some content) =
        (((linesOf content).filter
            (fun ln => decide (5 ≤ (tokens ',' ln).length))).map
          recordOfLine).take MAX_MOVIES) ∧
    (∀ ln : List Char, (tokens ',' ln).length < 5 → parseLine ln = none) ∧
    (∀ (ln i t d y g : List Char) (rest : List (List Char)),
      tokens ',' ln = i :: t :: d :: y :: g :: rest →
      parseLine ln = some ⟨atoi i, t, d, atoi y, g⟩) ∧
    (∀ (c : Char) (cs : List Char), isDigitChar c = false →
      isSpaceChar c = false → c ≠ '-' → c ≠ '+' → atoi (c :: cs) = 0) := by
  refine ⟨rfl, ?_, parseLine_short, parseLine_long, atoi_not_numeric⟩
  intro content
  rw [loadMoviesFromCSV, filterMap_parseLine_eq]

/-- Witness for C8: the missing file, a two-field line, a five-field line,
and a non-numeric numeric field. -/
theorem c8_witness :
    loadMoviesFromCSV none = [] ∧
    parseLine "1,2".toList = none ∧
    parseLine "1,t,d,2000,g".toList =
      some ⟨atoi "1".toList, "t".toList, "d".toList, atoi "2000".toList,
        "g".toList⟩ ∧
    atoi "year".toList = 0 :=
  ⟨c8_load_tolerant_parse.1,
    c8_load_tolerant_parse.2.2.1 "1,2".toList (by decide),
    c8_load_tolerant_parse.2.2.2.1 "1,t,d,2000,g".toList "1".toList "t".toList
      "d".toList "2000".toList "g".toList [] (by decide),
    c8_load_tolerant_parse.2.2.2.2 'y' "ear".toList (by decide) (by decide)
      (by decide) (by decide)⟩

/-- C9: `listByGenre` returns exactly the records whose joined genre string
contains the query as a literal substring (`strstr` agrees with substring
containment), and on the query "Com" it returns both the record with genres
"Comedy;Drama" and the record with genres "Romantic-Comedy" while excluding
a "Horror" record. -/
theorem c9_genre_substring_match :
    (∀ (g : List Char) (l : List Movie) (m : Movie),
      m ∈ listMoviesByGenre g l ↔ m ∈ l ∧ strstr g m.genres = true) ∧
    (∀ n hay : List Char, strstr n hay = true ↔ specSubstring n hay) ∧
    listMoviesByGenre "Com".toList
        [⟨1, "A".toList, "B".toList, 2000, "Comedy;Drama".toList⟩,
          ⟨2, "C".toList, "D".toList, 2001, "Romantic-Comedy".toList⟩,
          ⟨3, "E".toList, "F".toList, 2002, "Horror".toList⟩] =
      [⟨1, "A".toList, "B".toList, 2000, "Comedy;Drama".toList⟩,
        ⟨2, "C".toList, "D".toList, 2001, "Romantic-Comedy".toList⟩] := by
  refine ⟨?_, strstr_iff, by decide⟩
  intro g l m
  unfold listMoviesByGenre
  exact List.mem_filter

/-- Witness for C9 at concrete records and queries. -/
theorem c9_witness :
    ((⟨2, "C".toList, "D".toList, 2001, "Romantic-Comedy".toList⟩ : Movie) ∈
      listMoviesByGenre "Com".toList
        [⟨1, "A".toList, "B".toList, 2000, "Comedy;Drama".toList⟩,
          ⟨2, "C".toList, "D".toList, 2001, "Romantic-Comedy".toList⟩] ↔
      (⟨2, "C".toList, "D".toList, 2001, "Romantic-Comedy".toList⟩ : Movie) ∈
        [⟨1, "A".toList, "B".toList, 2000, "Comedy;Drama".toList⟩,
          ⟨2, "C".toList, "D".toList, 2001, "Romantic-Comedy".toList⟩] ∧
      strstr "Com".toList "Romantic-Comedy".toList = true) ∧
    (strstr "Com".toList "Comedy;Drama".toList = true ↔
      specSubstring "Com".toList "Comedy;Drama".toList) :=
  ⟨c9_genre_substring_match.1 "Com".toList _ _,
    c9_genre_substring_match.2.1 "Com".toList "Comedy;Drama".toList⟩

/-- C10 counterexample: the claim says a non-numeric option line, which is
neither a recognized code 1..7 nor the terminate code 0, draws one
"invalid option" response and the loop continues; but `atoi("abc")` is 0,
so the handler takes the terminate branch: it closes the loop with no
response. -/
theorem c10_counterexample :
    handleOption "abc".toList = ClientAction.terminate ∧
    ClientAction.terminate ≠ ClientAction.invalid ∧
    "abc".toList ≠ "0".toList := by
  decide

/-- C10 (amended): an option line whose `atoi` value lies outside 0..7 —
negative numbers included — reaches the default branch: no further field is
read, exactly one invalid-option response is sent, and the loop continues;
an option line whose `atoi` value is 0, which includes non-numeric text as
well as the literal code 0, terminates the loop with no response. -/
theorem c10_invalid_option (ln : List Char) :
    ((atoi ln < 0 ∨ 7 < atoi ln) →
      handleOption ln = ClientAction.invalid ∧
      fieldsConsumed (handleOption ln) = 0 ∧
      responseCount (handleOption ln) = 1 ∧
      continuesLoop (handleOption ln) = true) ∧
    (atoi ln = 0 →
      handleOption ln = ClientAction.terminate ∧
      responseCount (handleOption ln) = 0 ∧
      continuesLoop (handleOption ln) = false) := by
  constructor
  · intro h
    have hinv : handleOption ln = ClientAction.invalid := by
      simp only [handleOption]
      split_ifs with h0 h1 h2 h3 h4 h5 h6 h7 <;> first | rfl | omega
    exact ⟨hinv, by rw [hinv]; rfl, by rw [hinv]; rfl, by rw [hinv]; rfl⟩
  · intro h
    have hterm : handleOption ln = ClientAction.terminate := by
      simp only [handleOption]
      rw [if_pos h]
    exact ⟨hterm, by rw [hterm]; rfl, by rw [hterm]; rfl⟩

/-- Witness for C10: the out-of-range code "99" and the non-numeric line
"abc". -/
theorem c10_witness :
    (handleOption "99".toList = ClientAction.invalid ∧
      fieldsConsumed (handleOption "99".toList) = 0 ∧
      responseCount (handleOption "99".toList) = 1 ∧
      continuesLoop (handleOption "99".toList) = true) ∧
    (handleOption "abc".toList = ClientAction.terminate ∧
      responseCount (handleOption "abc".toList) = 0 ∧
      continuesLoop (handleOption "abc".toList) = false) :=
  ⟨(c10_invalid_option "99".toList).1 (by decide),
    (c10_invalid_option "abc".toList).2 (by decide)⟩

end MovieServer
